import Mathlib

/-!
Verification of the salary-prediction Streamlit app (`src/jai.py`).

The application downloads two pickled artifacts (a classifier and a set of
label encoders), collects form fields, encodes the categorical fields,
assembles a feature vector, calls the classifier, and renders either a
result panel or a placeholder panel.  The artifacts themselves
(`salary_model.pkl`, `encoders.pkl`) are opaque binaries not present in the
repository, so their behaviour is modelled from the spec where needed; the
glue logic (the form gate, the encode/predict/decode pipeline, the download
policy) is embedded directly from `src/jai.py`.
-/

namespace SalaryApp

/-- Modelled from the spec: the categorical encoders live in the opaque
artifact `encoders.pkl`, which is not part of the repository.  Per the spec,
a `CategoricalEncoder` is "a named, fixed, ordered vocabulary mapping each
known category string to a unique integer code, and the inverse mapping back
to the string"; a value outside the vocabulary is a hard error. -/
structure Encoder where
  classes_ : List String

/-- The `transform` operation of the encoder: the integer code of a known category string,
`none` (the raised error) for a value outside the vocabulary. -/
def Encoder.transform (e : Encoder) (v : String) : Option Nat :=
  if v ∈ e.classes_ then some (e.classes_.indexOf v) else none

/-- The `inverse_transform` operation of the encoder: look the code up in the ordered
vocabulary; out-of-range codes are the raised error (`none`). -/
def Encoder.inverse_transform (e : Encoder) (i : Nat) : Option String :=
  e.classes_[i]?

/-- The four encoders loaded from `encoders.pkl`, keyed in `src/jai.py` by
the strings `education`, `occupation`, `native-country` and `income`. -/
structure Encoders where
  education : Encoder
  occupation : Encoder
  nativeCountry : Encoder
  income : Encoder

/-- Modelled from the spec: the trained classifier lives in the opaque
artifact `salary_model.pkl`, which is not part of the repository.  Per the
spec it exposes `predict` (a class index for a feature vector) and may
expose a probability-estimation capability `predict_proba` returning the
class probabilities (each a probability, i.e. in `[0,1]`, over a non-empty
set of classes). -/
structure Model where
  predict : List Nat → Nat
  hasPredictProba : Bool
  predictProba : List Nat → List ℚ
  probaMem : ∀ fs p, p ∈ predictProba fs → 0 ≤ p ∧ p ≤ 1
  probaNe : ∀ fs, predictProba fs ≠ []

/-- The `numpy` max over the flattened probability array: the maximum of
a non-empty list (the empty case never arises, `Model.probaNe`). -/
def npMax : List ℚ → ℚ
  | [] => 0
  | x :: xs => xs.foldl max x

/-- The raw values collected by the form in `src/jai.py` (lines 103-117). -/
structure Fields where
  fname : String
  lname : String
  email : String
  experience : Nat
  age : Nat
  education : String
  occupation : String
  country : String
  hours : Nat

/-- The result rendered in the summary panel: the decoded income label and
the confidence shown on the gauge. -/
structure PredictionResult where
  label : String
  confidence : ℚ
deriving DecidableEq

/-- Observable events of one pass over the right column of `src/jai.py`:
the encoding attempt (lines 126-128), the construction of the feature
vector (line 133), the classifier call (line 136), and the rendering of
the result panel (line 148) or of the placeholder panel (line 194). -/
inductive Ev where
  | encode (edu occ ctry : String)
  | build (features : List Nat)
  | predictCall (features : List Nat)
  | renderResult (label : String)
  | renderPlaceholder
deriving DecidableEq

/-- What the right column leaves on screen: the result panel, nothing
(`st.stop()` after an encoding error, or the uncaught decode error at line
145), or the placeholder panel. -/
inductive Outcome where
  | resultPanel (r : PredictionResult)
  | encodingStop
  | decodeStop
  | placeholderPanel
deriving DecidableEq

/-- The label shown by an outcome, if any. -/
def Outcome.labelOf : Outcome → Option String
  | .resultPanel r => some r.label
  | _ => none

/-- The three encoding calls of lines 126-128: any unknown value raises,
aborting before the feature vector is built. -/
def encodeFields (encs : Encoders) (edu occ ctry : String) : Option (Nat × Nat × Nat) :=
  match encs.education.transform edu, encs.occupation.transform occ,
      encs.nativeCountry.transform ctry with
  | some e, some o, some n => some (e, o, n)
  | _, _, _ => none

/-- Lines 126-145 of `src/jai.py`, after the submission gate has passed:
encode the three categorical fields (aborting on an unknown value), build
`features = [[edu_enc, occ_enc, nat_enc, hours]]`, call `model.predict`,
compute the confidence from `predict_proba` when available and otherwise
from the `np.random.uniform(0.85, 0.97)` draw `rand`, then decode the
predicted class through the `income` encoder. -/
def submitBranch (encs : Encoders) (m : Model) (edu occ ctry : String) (hours : Nat)
    (rand : ℚ) : Outcome × List Ev :=
  match encodeFields encs edu occ ctry with
  | none => (.encodingStop, [.encode edu occ ctry])
  | some (e, o, n) =>
    match encs.income.inverse_transform (m.predict [e, o, n, hours]) with
    | some lab =>
      (.resultPanel
          ⟨lab,
            if m.hasPredictProba then npMax (m.predictProba [e, o, n, hours]) else rand⟩,
        [.encode edu occ ctry, .build [e, o, n, hours], .predictCall [e, o, n, hours],
          .renderResult lab])
    | none =>
      (.decodeStop,
        [.encode edu occ ctry, .build [e, o, n, hours], .predictCall [e, o, n, hours]])

/-- The right column of `src/jai.py` (lines 123-199): line 124 gates on
`submitted and fname and lname` (a Python string is truthy iff non-empty);
when the gate passes the prediction pipeline runs, otherwise the
placeholder panel is rendered. -/
def runRight (encs : Encoders) (m : Model) (f : Fields) (submitted : Bool) (rand : ℚ) :
    Outcome × List Ev :=
  if submitted ∧ f.fname ≠ "" ∧ f.lname ≠ "" then
    submitBranch encs m f.education f.occupation f.country f.hours rand
  else (.placeholderPanel, [.renderPlaceholder])

/-- Modelled from the spec: a bounded input widget (`st.slider`,
`st.select_slider`) rejects values outside its range — the widget only ever
yields a value within `[lo, hi]`, clamping any out-of-range request. -/
def slider (lo hi v : Nat) : Nat := max lo (min v hi)

/-- The form of `src/jai.py` (lines 103-117): free-text name and email
fields, experience in `0..40`, age in `18..70`, the three categorical
choices, and weekly hours constrained to `10..80` by the slider. -/
def formFields (fname lname email : String) (experience age : Nat)
    (education occupation country : String) (hours : Nat) : Fields :=
  { fname := fname, lname := lname, email := email,
    experience := slider 0 40 experience,
    age := slider 18 70 age,
    education := education, occupation := occupation, country := country,
    hours := slider 10 80 hours }

/-- Actions taken at startup on an artifact file. -/
inductive StartupAct where
  | download (dest : String)
  | validate (dest : String)
  | load (dest : String)
deriving DecidableEq

/-- Lines 17-28 of `src/jai.py`: for each artifact, download it iff the
local file is absent, then load both files with pickle; no validation step
exists anywhere. -/
def startupTrace (modelPresent encodersPresent : Bool) : List StartupAct :=
  (if modelPresent then [] else [.download "salary_model.pkl"]) ++
    (if encodersPresent then [] else [.download "encoders.pkl"]) ++
    [.load "salary_model.pkl", .load "encoders.pkl"]

/-! Concrete instances used by the witnesses. -/

/-- A concrete set of encoders with small vocabularies. -/
def demoEncoders : Encoders where
  education := ⟨["Bachelors", "HS-grad", "Masters"]⟩
  occupation := ⟨["Exec-managerial", "Sales"]⟩
  nativeCountry := ⟨["India", "United-States"]⟩
  income := ⟨["<=50K", ">50K"]⟩

/-- A concrete classifier exposing `predict_proba`. -/
def demoModel : Model where
  predict := fun _ => 0
  hasPredictProba := true
  predictProba := fun _ => [3 / 4]
  probaMem := by
    intro fs p hp
    simp only [List.mem_singleton] at hp
    subst hp
    constructor <;> norm_num
  probaNe := by intro fs; simp

/-- A concrete classifier without `predict_proba`. -/
def demoModelNoProba : Model where
  predict := fun _ => 1
  hasPredictProba := false
  predictProba := fun _ => [1]
  probaMem := by
    intro fs p hp
    simp only [List.mem_singleton] at hp
    subst hp
    constructor <;> norm_num
  probaNe := by intro fs; simp

/-- A concrete field assignment that passes the gate and encodes. -/
def demoFields : Fields where
  fname := "John"
  lname := "Doe"
  email := "john.doe@company.com"
  experience := 5
  age := 35
  education := "Bachelors"
  occupation := "Sales"
  country := "India"
  hours := 40

/-- Variant of `demoFields` with an empty first name. -/
def demoFieldsNoName : Fields := { demoFields with fname := "" }

/-- Variant of `demoFields` with every non-model field changed. -/
def demoFieldsAlt : Fields :=
  { demoFields with
    fname := "Jane", lname := "Smith", email := "", experience := 20, age := 60 }

/-! Facts about `npMax`. -/

/-- The fold underlying `npMax` returns one of its inputs. -/
theorem foldl_max_mem (xs : List ℚ) (x : ℚ) : xs.foldl max x ∈ x :: xs := by
  induction xs generalizing x with
  | nil => simp
  | cons y ys ih =>
    rw [List.foldl_cons]
    rcases List.mem_cons.mp (ih (max x y)) with hm | hm
    · rcases max_choice x y with hc | hc <;> rw [hm, hc] <;> simp
    · simp [hm]

/-- The fold underlying `npMax` dominates the lower bounds of its initial value. -/
theorem le_foldl_of_le (xs : List ℚ) (x p : ℚ) (hp : p ≤ x) : p ≤ xs.foldl max x := by
  induction xs generalizing x with
  | nil => simpa using hp
  | cons y ys ih => exact ih (max x y) (le_trans hp (le_max_left x y))

/-- The fold underlying `npMax` bounds every list element. -/
theorem le_foldl_max (xs : List ℚ) : ∀ (x p : ℚ), p ∈ xs → p ≤ xs.foldl max x := by
  induction xs with
  | nil => intro x p hp; simp at hp
  | cons y ys ih =>
    intro x p hp
    rw [List.foldl_cons]
    rcases List.mem_cons.mp hp with h | h
    · exact le_foldl_of_le ys (max x y) p (h ▸ le_max_right x y)
    · exact ih (max x y) p h

/-- The value `npMax l` of a non-empty list `l` is one of its elements. -/
theorem npMax_mem (l : List ℚ) (h : l ≠ []) : npMax l ∈ l := by
  cases l with
  | nil => exact absurd rfl h
  | cons x xs => exact foldl_max_mem xs x

/-- The value `npMax l` bounds every element of `l`. -/
theorem le_npMax (l : List ℚ) (p : ℚ) (hp : p ∈ l) : p ≤ npMax l := by
  cases l with
  | nil => simp at hp
  | cons x xs =>
    rcases List.mem_cons.mp hp with h | h
    · exact le_foldl_of_le xs x p h.le
    · exact le_foldl_max xs x p h

/-! Structural facts about `submitBranch`, shared by several claims. -/

/-- The event trace of the pipeline does not depend on the random draw. -/
theorem submitBranch_trace_rand (encs : Encoders) (m : Model) (edu occ ctry : String)
    (hours : Nat) (r1 r2 : ℚ) :
    (submitBranch encs m edu occ ctry hours r1).2 =
      (submitBranch encs m edu occ ctry hours r2).2 := by
  unfold submitBranch
  cases h : encodeFields encs edu occ ctry with
  | none => rfl
  | some t =>
    obtain ⟨e, o, n⟩ := t
    cases h2 : encs.income.inverse_transform (m.predict [e, o, n, hours]) <;> simp [h2]

/-- The label of the outcome of the pipeline does not depend on the random draw. -/
theorem submitBranch_label_rand (encs : Encoders) (m : Model) (edu occ ctry : String)
    (hours : Nat) (r1 r2 : ℚ) :
    (submitBranch encs m edu occ ctry hours r1).1.labelOf =
      (submitBranch encs m edu occ ctry hours r2).1.labelOf := by
  unfold submitBranch
  cases h : encodeFields encs edu occ ctry with
  | none => rfl
  | some t =>
    obtain ⟨e, o, n⟩ := t
    cases h2 : encs.income.inverse_transform (m.predict [e, o, n, hours]) <;>
      simp [h2, Outcome.labelOf]

/-- With `predict_proba` available the pipeline ignores the random draw. -/
theorem submitBranch_proba_rand (encs : Encoders) (m : Model) (edu occ ctry : String)
    (hours : Nat) (r1 r2 : ℚ) (hp : m.hasPredictProba = true) :
    submitBranch encs m edu occ ctry hours r1 =
      submitBranch encs m edu occ ctry hours r2 := by
  unfold submitBranch
  cases h : encodeFields encs edu occ ctry with
  | none => rfl
  | some t =>
    obtain ⟨e, o, n⟩ := t
    cases h2 : encs.income.inverse_transform (m.predict [e, o, n, hours]) <;> simp [h2, hp]

/-- Inversion: a result panel determines the encodings, the decoded label
and the confidence expression. -/
theorem submitBranch_resultPanel (encs : Encoders) (m : Model) (edu occ ctry : String)
    (hours : Nat) (rand : ℚ) (r : PredictionResult)
    (h : (submitBranch encs m edu occ ctry hours rand).1 = .resultPanel r) :
    ∃ e o n, encodeFields encs edu occ ctry = some (e, o, n) ∧
      encs.income.inverse_transform (m.predict [e, o, n, hours]) = some r.label ∧
      r.confidence =
        (if m.hasPredictProba then npMax (m.predictProba [e, o, n, hours]) else rand) := by
  cases henc : encodeFields encs edu occ ctry with
  | none => simp [submitBranch, henc] at h
  | some t =>
    obtain ⟨e, o, n⟩ := t
    cases h2 : encs.income.inverse_transform (m.predict [e, o, n, hours]) with
    | none => simp [submitBranch, henc, h2] at h
    | some lab =>
      simp only [submitBranch, henc, h2, Outcome.resultPanel.injEq] at h
      refine ⟨e, o, n, rfl, ?_, ?_⟩
      · rw [h2, ← h]
      · rw [← h]

/-- Inversion: a classifier call determines the feature vector. -/
theorem submitBranch_predictCall (encs : Encoders) (m : Model) (edu occ ctry : String)
    (hours : Nat) (rand : ℚ) (fs : List Nat)
    (h : Ev.predictCall fs ∈ (submitBranch encs m edu occ ctry hours rand).2) :
    ∃ e o n, encodeFields encs edu occ ctry = some (e, o, n) ∧ fs = [e, o, n, hours] := by
  cases henc : encodeFields encs edu occ ctry with
  | none => simp [submitBranch, henc] at h
  | some t =>
    obtain ⟨e, o, n⟩ := t
    refine ⟨e, o, n, rfl, ?_⟩
    cases h2 : encs.income.inverse_transform (m.predict [e, o, n, hours]) <;>
      simp [submitBranch, henc, h2] at h <;> tauto

/-- A successful `transform` certifies membership in the vocabulary. -/
theorem Encoder.mem_of_transform (e : Encoder) (v : String) (c : Nat)
    (h : e.transform v = some c) : v ∈ e.classes_ := by
  unfold Encoder.transform at h
  by_cases hv : v ∈ e.classes_
  · exact hv
  · rw [if_neg hv] at h
    exact absurd h (by simp)

/-- If any of the three categorical values is outside its vocabulary, the
encoding step fails. -/
theorem encodeFields_none (encs : Encoders) (edu occ ctry : String)
    (h : edu ∉ encs.education.classes_ ∨ occ ∉ encs.occupation.classes_ ∨
      ctry ∉ encs.nativeCountry.classes_) :
    encodeFields encs edu occ ctry = none := by
  unfold encodeFields
  split
  · rename_i e o n h1 h2 h3
    rcases h with hh | hh | hh
    · exact absurd (Encoder.mem_of_transform _ _ _ h1) hh
    · exact absurd (Encoder.mem_of_transform _ _ _ h2) hh
    · exact absurd (Encoder.mem_of_transform _ _ _ h3) hh
  · rfl

/-- A successful encoding step determines the three individual encodings. -/
theorem encodeFields_some (encs : Encoders) (edu occ ctry : String) (e o n : Nat)
    (h : encodeFields encs edu occ ctry = some (e, o, n)) :
    encs.education.transform edu = some e ∧ encs.occupation.transform occ = some o ∧
      encs.nativeCountry.transform ctry = some n := by
  unfold encodeFields at h
  split at h
  · rename_i e' o' n' h1 h2 h3
    obtain ⟨rfl, rfl, rfl⟩ : e' = e ∧ o' = o ∧ n' = n := by
      simpa [Prod.ext_iff] using h
    exact ⟨h1, h2, h3⟩
  · exact absurd h (by simp)

/-- The slider value always lies in the slider range. -/
theorem slider_mem (lo hi v : Nat) (hle : lo ≤ hi) :
    lo ≤ slider lo hi v ∧ slider lo hi v ≤ hi := by
  unfold slider
  omega

/-- C1: for every categorical value `v` in the vocabulary of an encoder, decoding
the integer code obtained by encoding `v` yields `v` again:
`inverse_transform (transform v) = v`. -/
theorem encoder_round_trip (e : Encoder) (v : String) (hv : v ∈ e.classes_) :
    (e.transform v).bind e.inverse_transform = some v := by
  unfold Encoder.transform Encoder.inverse_transform
  rw [if_pos hv, Option.some_bind]
  exact List.getElem?_indexOf hv

/-- Witness for C1 at a concrete encoder and value. -/
theorem encoder_round_trip_witness :
    "Masters" ∈ (Encoder.mk ["Bachelors", "HS-grad", "Masters"]).classes_ ∧
      ((Encoder.mk ["Bachelors", "HS-grad", "Masters"]).transform "Masters").bind
        (Encoder.mk ["Bachelors", "HS-grad", "Masters"]).inverse_transform =
        some "Masters" :=
  ⟨by decide, encoder_round_trip (Encoder.mk ["Bachelors", "HS-grad", "Masters"]) "Masters"
    (by decide)⟩

/-- C2: for every input field assignment accepted by the form, the
confidence rendered in the result panel — whether taken from
`predict_proba` or synthesized by the `np.random.uniform(0.85, 0.97)`
fallback — lies in the closed interval `[0, 1]`. -/
theorem confidence_in_unit_interval (encs : Encoders) (m : Model) (f : Fields)
    (s : Bool) (rand : ℚ) (r : PredictionResult)
    (hr1 : 85 / 100 ≤ rand) (hr2 : rand < 97 / 100)
    (hres : (runRight encs m f s rand).1 = .resultPanel r) :
    0 ≤ r.confidence ∧ r.confidence ≤ 1 := by
  unfold runRight at hres
  split at hres
  · obtain ⟨e, o, n, henc, hdec, hconf⟩ :=
      submitBranch_resultPanel _ _ _ _ _ _ _ _ hres
    rw [hconf]
    by_cases hp : m.hasPredictProba = true
    · rw [if_pos hp]
      exact m.probaMem _ _ (npMax_mem _ (m.probaNe [e, o, n, f.hours]))
    · rw [if_neg hp]
      constructor <;> linarith
  · exact absurd hres (by simp)

/-- Witness for C2: a concrete submission whose confidence is `3/4`. -/
theorem confidence_in_unit_interval_witness :
    (85 / 100 : ℚ) ≤ 9 / 10 ∧ (9 / 10 : ℚ) < 97 / 100 ∧
      (runRight demoEncoders demoModel demoFields true (9 / 10)).1 =
        .resultPanel ⟨"<=50K", 3 / 4⟩ ∧
      (0 ≤ (PredictionResult.mk "<=50K" (3 / 4)).confidence ∧
        (PredictionResult.mk "<=50K" (3 / 4)).confidence ≤ 1) :=
  ⟨by norm_num, by norm_num, rfl,
    confidence_in_unit_interval demoEncoders demoModel demoFields true (9 / 10)
      ⟨"<=50K", 3 / 4⟩ (by norm_num) (by norm_num) rfl⟩

/-- C3: for a fixed model, encoders and field assignment, two runs of the
prediction step (differing only in the hidden random draw) produce the
same label and the same event trace, and, when the model exposes
`predict_proba`, the same full outcome (confidence included). -/
theorem predict_deterministic (encs : Encoders) (m : Model) (f : Fields) (s : Bool)
    (r1 r2 : ℚ) :
    (runRight encs m f s r1).1.labelOf = (runRight encs m f s r2).1.labelOf ∧
      (runRight encs m f s r1).2 = (runRight encs m f s r2).2 ∧
      (m.hasPredictProba = true → runRight encs m f s r1 = runRight encs m f s r2) := by
  refine ⟨?_, ?_, ?_⟩
  · unfold runRight
    split
    · exact submitBranch_label_rand encs m f.education f.occupation f.country f.hours r1 r2
    · rfl
  · unfold runRight
    split
    · exact submitBranch_trace_rand encs m f.education f.occupation f.country f.hours r1 r2
    · rfl
  · intro hp
    unfold runRight
    split
    · exact submitBranch_proba_rand encs m f.education f.occupation f.country f.hours r1 r2 hp
    · rfl

/-- Witness for C3: two runs with different random draws agree. -/
theorem predict_deterministic_witness :
    (runRight demoEncoders demoModel demoFields true (1 / 2)).1.labelOf =
        (runRight demoEncoders demoModel demoFields true (2 / 3)).1.labelOf ∧
      demoModel.hasPredictProba = true ∧
      runRight demoEncoders demoModel demoFields true (1 / 2) =
        runRight demoEncoders demoModel demoFields true (2 / 3) :=
  ⟨(predict_deterministic demoEncoders demoModel demoFields true (1 / 2) (2 / 3)).1, rfl,
    (predict_deterministic demoEncoders demoModel demoFields true (1 / 2) (2 / 3)).2.2 rfl⟩

/-- C4: for every prediction rendered, the confidence is the maximum class
probability returned by `predict_proba` on the submitted feature vector
when the model has that capability, and otherwise is the synthesized
uniform draw, which lies in the fixed high range `[0.85, 0.97)`. -/
theorem confidence_source (encs : Encoders) (m : Model) (f : Fields) (s : Bool)
    (rand : ℚ) (r : PredictionResult)
    (hres : (runRight encs m f s rand).1 = .resultPanel r) :
    (m.hasPredictProba = true →
      ∃ fs, Ev.predictCall fs ∈ (runRight encs m f s rand).2 ∧
        r.confidence ∈ m.predictProba fs ∧ ∀ p ∈ m.predictProba fs, p ≤ r.confidence) ∧
      (m.hasPredictProba = false →
        r.confidence = rand ∧
          (85 / 100 ≤ rand → rand < 97 / 100 →
            85 / 100 ≤ r.confidence ∧ r.confidence < 97 / 100)) := by
  unfold runRight at hres ⊢
  split at hres
  · rename_i hg
    rw [if_pos hg]
    obtain ⟨e, o, n, henc, hdec, hconf⟩ :=
      submitBranch_resultPanel _ _ _ _ _ _ _ _ hres
    constructor
    · intro hp
      rw [if_pos hp] at hconf
      refine ⟨[e, o, n, f.hours], ?_, ?_, ?_⟩
      · simp [submitBranch, henc, hdec]
      · rw [hconf]
        exact npMax_mem _ (m.probaNe [e, o, n, f.hours])
      · intro p hpmem
        rw [hconf]
        exact le_npMax _ p hpmem
    · intro hp
      rw [if_neg (by simp [hp])] at hconf
      refine ⟨hconf, fun h1 h2 => ?_⟩
      rw [hconf]
      exact ⟨h1, h2⟩
  · exact absurd hres (by simp)

/-- Witness for C4 at a concrete model exposing `predict_proba`. -/
theorem confidence_source_witness :
    (runRight demoEncoders demoModel demoFields true (9 / 10)).1 =
        .resultPanel ⟨"<=50K", 3 / 4⟩ ∧
      demoModel.hasPredictProba = true ∧
      ∃ fs, Ev.predictCall fs ∈ (runRight demoEncoders demoModel demoFields true (9 / 10)).2 ∧
        (PredictionResult.mk "<=50K" (3 / 4)).confidence ∈ demoModel.predictProba fs ∧
        ∀ p ∈ demoModel.predictProba fs, p ≤ (PredictionResult.mk "<=50K" (3 / 4)).confidence :=
  ⟨rfl, rfl,
    (confidence_source demoEncoders demoModel demoFields true (9 / 10)
      ⟨"<=50K", 3 / 4⟩ rfl).1 rfl⟩

/-- C5: a submission carrying a categorical value outside the vocabulary of its encoder
vocabulary stops at the encoding step: the outcome is the encoding abort,
and no feature vector is built, no classifier call is made, and no result
panel is rendered. -/
theorem unknown_value_aborts (encs : Encoders) (m : Model) (f : Fields) (s : Bool)
    (rand : ℚ) (hs : s = true) (hf : f.fname ≠ "") (hl : f.lname ≠ "")
    (hunk : f.education ∉ encs.education.classes_ ∨
      f.occupation ∉ encs.occupation.classes_ ∨
      f.country ∉ encs.nativeCountry.classes_) :
    (runRight encs m f s rand).1 = .encodingStop ∧
      (∀ fs, Ev.build fs ∉ (runRight encs m f s rand).2) ∧
      (∀ fs, Ev.predictCall fs ∉ (runRight encs m f s rand).2) ∧
      (∀ lab, Ev.renderResult lab ∉ (runRight encs m f s rand).2) := by
  have henc := encodeFields_none encs f.education f.occupation f.country hunk
  have hrun : runRight encs m f s rand =
      (.encodingStop, [.encode f.education f.occupation f.country]) := by
    unfold runRight
    rw [if_pos ⟨hs, hf, hl⟩]
    simp [submitBranch, henc]
  rw [hrun]
  refine ⟨rfl, ?_, ?_, ?_⟩ <;> intro x hx <;> simp at hx

/-- Witness for C5: an education value outside the demo vocabulary. -/
theorem unknown_value_aborts_witness :
    ({ demoFields with education := "Doctorate" } : Fields).fname ≠ "" ∧
      "Doctorate" ∉ demoEncoders.education.classes_ ∧
      (runRight demoEncoders demoModel { demoFields with education := "Doctorate" }
        true (9 / 10)).1 = .encodingStop :=
  ⟨by decide, by decide,
    (unknown_value_aborts demoEncoders demoModel
      { demoFields with education := "Doctorate" } true (9 / 10) rfl (by decide)
      (by decide) (Or.inl (by decide))).1⟩

/-- C6: every feature vector passed to the classifier is exactly the
4-tuple (encoded education, encoded occupation, encoded country, weekly
hours), in that order. -/
theorem feature_vector_order (encs : Encoders) (m : Model) (f : Fields) (s : Bool)
    (rand : ℚ) (fs : List Nat)
    (h : Ev.predictCall fs ∈ (runRight encs m f s rand).2) :
    ∃ e o n, encs.education.transform f.education = some e ∧
      encs.occupation.transform f.occupation = some o ∧
      encs.nativeCountry.transform f.country = some n ∧
      fs = [e, o, n, f.hours] := by
  unfold runRight at h
  split at h
  · obtain ⟨e, o, n, henc, hfs⟩ := submitBranch_predictCall _ _ _ _ _ _ _ _ h
    obtain ⟨h1, h2, h3⟩ := encodeFields_some _ _ _ _ _ _ _ henc
    exact ⟨e, o, n, h1, h2, h3, hfs⟩
  · exact absurd h (by simp)

/-- Witness for C6 at the demo submission. -/
theorem feature_vector_order_witness :
    Ev.predictCall [0, 1, 0, 40] ∈
        (runRight demoEncoders demoModel demoFields true (9 / 10)).2 ∧
      ∃ e o n, demoEncoders.education.transform demoFields.education = some e ∧
        demoEncoders.occupation.transform demoFields.occupation = some o ∧
        demoEncoders.nativeCountry.transform demoFields.country = some n ∧
        [0, 1, 0, 40] = [e, o, n, demoFields.hours] :=
  ⟨by decide,
    feature_vector_order demoEncoders demoModel demoFields true (9 / 10) [0, 1, 0, 40]
      (by decide)⟩

/-- C7: a submission with an empty first or last name (or no submission at
all) performs no encoding, inference, or rendering of a result — the whole
interaction is the placeholder panel; conversely a result panel is only
produced when the form was submitted with both names non-empty. -/
theorem name_gate (encs : Encoders) (m : Model) (f : Fields) (s : Bool) (rand : ℚ) :
    ((s = false ∨ f.fname = "" ∨ f.lname = "") →
      runRight encs m f s rand = (.placeholderPanel, [.renderPlaceholder])) ∧
      (∀ r, (runRight encs m f s rand).1 = .resultPanel r →
        s = true ∧ f.fname ≠ "" ∧ f.lname ≠ "") := by
  constructor
  · intro hfail
    unfold runRight
    rw [if_neg]
    rcases hfail with h | h | h <;> simp [h]
  · intro r hres
    by_cases hg : s = true ∧ f.fname ≠ "" ∧ f.lname ≠ ""
    · exact hg
    · unfold runRight at hres
      rw [if_neg hg] at hres
      exact absurd hres (by simp)

/-- Witness for C7: an empty first name yields the placeholder panel. -/
theorem name_gate_witness :
    demoFieldsNoName.fname = "" ∧
      runRight demoEncoders demoModel demoFieldsNoName true (9 / 10) =
        (.placeholderPanel, [.renderPlaceholder]) :=
  ⟨rfl,
    (name_gate demoEncoders demoModel demoFieldsNoName true (9 / 10)).1
      (Or.inr (Or.inl rfl))⟩

/-- C8: the weekly-hours widget is the slider `st.slider(10, 80, 40)`, so
an hours value below 10 or above 80 never reaches the inference adapter:
every feature vector built from the form carries an hours entry in
`[10, 80]`. -/
theorem hours_bounded (encs : Encoders) (m : Model) (fname lname email : String)
    (experience age : Nat) (education occupation country : String) (hoursReq : Nat)
    (s : Bool) (rand : ℚ) (fs : List Nat)
    (h : Ev.predictCall fs ∈
      (runRight encs m
        (formFields fname lname email experience age education occupation country hoursReq)
        s rand).2) :
    ∃ e o n h4, fs = [e, o, n, h4] ∧ 10 ≤ h4 ∧ h4 ≤ 80 := by
  unfold runRight at h
  split at h
  · obtain ⟨e, o, n, henc, hfs⟩ := submitBranch_predictCall _ _ _ _ _ _ _ _ h
    obtain ⟨hlo, hhi⟩ := slider_mem 10 80 hoursReq (by norm_num)
    exact ⟨e, o, n, slider 10 80 hoursReq, hfs, hlo, hhi⟩
  · exact absurd h (by simp)

/-- Witness for C8: an out-of-range request of 200 hours is clamped. -/
theorem hours_bounded_witness :
    Ev.predictCall [0, 1, 0, 80] ∈
        (runRight demoEncoders demoModel
          (formFields "John" "Doe" "" 5 35 "Bachelors" "Sales" "India" 200)
          true (9 / 10)).2 ∧
      ∃ e o n h4, [0, 1, 0, 80] = ([e, o, n, h4] : List Nat) ∧ 10 ≤ h4 ∧ h4 ≤ 80 :=
  ⟨by decide,
    hours_bounded demoEncoders demoModel "John" "Doe" "" 5 35 "Bachelors" "Sales"
      "India" 200 true (9 / 10) [0, 1, 0, 80] (by decide)⟩

/-- C9: at startup each of the two artifacts is downloaded exactly once if
its local file is absent and not at all if it is present; every download
happens before the loads, and no validation action ever occurs. -/
theorem artifact_download_policy (mp ep : Bool) :
    (startupTrace mp ep).count (.download "salary_model.pkl") =
        (if mp then 0 else 1) ∧
      (startupTrace mp ep).count (.download "encoders.pkl") = (if ep then 0 else 1) ∧
      (∀ d, StartupAct.validate d ∉ startupTrace mp ep) ∧
      ∃ pre, startupTrace mp ep =
          pre ++ [.load "salary_model.pkl", .load "encoders.pkl"] ∧
        ∀ a ∈ pre, ∃ d, a = .download d := by
  cases mp <;> cases ep
  · refine ⟨by decide, by decide, ?_, ?_⟩
    · intro d hd
      simp [startupTrace] at hd
    · refine ⟨[.download "salary_model.pkl", .download "encoders.pkl"], by decide, ?_⟩
      intro a ha
      rcases List.mem_cons.mp ha with h | h
      · exact ⟨_, h⟩
      · exact ⟨_, by simpa using h⟩
  · refine ⟨by decide, by decide, ?_, ?_⟩
    · intro d hd
      simp [startupTrace] at hd
    · refine ⟨[.download "salary_model.pkl"], by decide, ?_⟩
      intro a ha
      exact ⟨_, by simpa using ha⟩
  · refine ⟨by decide, by decide, ?_, ?_⟩
    · intro d hd
      simp [startupTrace] at hd
    · refine ⟨[.download "encoders.pkl"], by decide, ?_⟩
      intro a ha
      exact ⟨_, by simpa using ha⟩
  · refine ⟨by decide, by decide, ?_, ?_⟩
    · intro d hd
      simp [startupTrace] at hd
    · refine ⟨[], by decide, ?_⟩
      intro a ha
      exact absurd ha (by simp)

/-- C10 counterexample: two submissions agreeing on education, occupation,
country and hours but differing in first name do NOT always behave
identically — an empty first name suppresses the prediction entirely, so
no feature vector, label or confidence is produced for it at all. -/
theorem unused_fields_counterexample :
    demoFields.education = demoFieldsNoName.education ∧
      demoFields.occupation = demoFieldsNoName.occupation ∧
      demoFields.country = demoFieldsNoName.country ∧
      demoFields.hours = demoFieldsNoName.hours ∧
      demoFields.fname ≠ demoFieldsNoName.fname ∧
      (runRight demoEncoders demoModel demoFields true (9 / 10)).1 =
        .resultPanel ⟨"<=50K", 3 / 4⟩ ∧
      (runRight demoEncoders demoModel demoFieldsNoName true (9 / 10)).1 =
        .placeholderPanel ∧
      (runRight demoEncoders demoModel demoFields true (9 / 10)).1 ≠
        (runRight demoEncoders demoModel demoFieldsNoName true (9 / 10)).1 := by
  refine ⟨rfl, rfl, rfl, rfl, by decide, rfl, rfl, ?_⟩
  intro h
  rw [show (runRight demoEncoders demoModel demoFields true (9 / 10)).1 =
      Outcome.resultPanel ⟨"<=50K", 3 / 4⟩ from rfl,
    show (runRight demoEncoders demoModel demoFieldsNoName true (9 / 10)).1 =
      Outcome.placeholderPanel from rfl] at h
  exact Outcome.noConfusion h

/-- C10 (amended): provided both submissions pass the name gate (first and
last names non-empty), two submissions agreeing on education, occupation,
country and weekly hours — whatever their names, email, experience and age
— produce the same event trace (hence the same feature vector and
classifier call), the same label, and, for a model exposing
`predict_proba`, the same full outcome including the confidence. -/
theorem unused_fields_amended (encs : Encoders) (m : Model) (f1 f2 : Fields)
    (s : Bool) (r1 r2 : ℚ)
    (he : f1.education = f2.education) (ho : f1.occupation = f2.occupation)
    (hc : f1.country = f2.country) (hh : f1.hours = f2.hours)
    (h1f : f1.fname ≠ "") (h1l : f1.lname ≠ "") (h2f : f2.fname ≠ "")
    (h2l : f2.lname ≠ "") :
    (runRight encs m f1 s r1).2 = (runRight encs m f2 s r2).2 ∧
      (runRight encs m f1 s r1).1.labelOf = (runRight encs m f2 s r2).1.labelOf ∧
      (m.hasPredictProba = true →
        (runRight encs m f1 s r1).1 = (runRight encs m f2 s r2).1) := by
  cases s with
  | false =>
    unfold runRight
    rw [if_neg (by simp), if_neg (by simp)]
    exact ⟨rfl, rfl, fun _ => rfl⟩
  | true =>
    unfold runRight
    rw [if_pos ⟨rfl, h1f, h1l⟩, if_pos ⟨rfl, h2f, h2l⟩, he, ho, hc, hh]
    refine ⟨submitBranch_trace_rand _ _ _ _ _ _ _ _,
      submitBranch_label_rand _ _ _ _ _ _ _ _, fun hp => ?_⟩
    rw [submitBranch_proba_rand encs m f2.education f2.occupation f2.country f2.hours
      r1 r2 hp]

/-- Witness for C10 (amended): all personal fields changed at once. -/
theorem unused_fields_amended_witness :
    demoFields.education = demoFieldsAlt.education ∧
      demoFields.fname ≠ demoFieldsAlt.fname ∧
      demoFields.age ≠ demoFieldsAlt.age ∧
      (runRight demoEncoders demoModel demoFields true (1 / 2)).2 =
        (runRight demoEncoders demoModel demoFieldsAlt true (2 / 3)).2 ∧
      (runRight demoEncoders demoModel demoFields true (1 / 2)).1 =
        (runRight demoEncoders demoModel demoFieldsAlt true (2 / 3)).1 :=
  ⟨rfl, by decide, by decide,
    (unused_fields_amended demoEncoders demoModel demoFields demoFieldsAlt true
      (1 / 2) (2 / 3) rfl rfl rfl rfl (by decide) (by decide) (by decide) (by decide)).1,
    (unused_fields_amended demoEncoders demoModel demoFields demoFieldsAlt true
      (1 / 2) (2 / 3) rfl rfl rfl rfl (by decide) (by decide) (by decide)
      (by decide)).2.2 rfl⟩

end SalaryApp
